import Mathlib

/-!
Verification development for the journalbeat event-buffering and
checkpoint-coordination pipeline (src/beater/journalbeat.go).

The Go source is shallowly embedded below: the untyped `common.MapStr`
event becomes an association list from string keys to a `GoValue` sum,
Go type assertions (`.(string)`, `.(int64)`) become partial projections
returning `Option` (with `none` modelling a panic), the stream-key map
`journalTypeOutstandingLogBuffer` becomes an association list from keys
to `LogBuffer`, and the observable effects of the engine (events sent to
the publishing sink, position markers sent on `cursorChan` to the
checkpoint writer) are made explicit as output lists threaded through a
`BeatState`.  Wall-clock instants and durations are modelled as integers
(the source compares `time.Duration` values converted to seconds).
-/

namespace Journalbeat

/-- A value stored in a `common.MapStr` event.  The source only ever
stores strings and `int64` values in the fields it later reads back. -/
inductive GoValue : Type
  | str (s : String)
  | int (n : Int)
deriving DecidableEq, Repr

/-- Embedding of `common.MapStr`: an association list of fields. -/
abbrev MapStr := List (String × GoValue)

/-- Lookup in an association list (Go map read, `m[k]` with ok-check). -/
def alGet {α : Type} : List (String × α) → String → Option α
  | [], _ => none
  | (k', v) :: rest, k => if k' = k then some v else alGet rest k

/-- Update in an association list (Go map write `m[k] = v`): replaces the
first binding of `k`, or appends a new binding. -/
def alSet {α : Type} : List (String × α) → String → α → List (String × α)
  | [], k, v => [(k, v)]
  | (k', v') :: rest, k, v =>
      if k' = k then (k, v) :: rest else (k', v') :: alSet rest k v

/-- Deletion from an association list (Go `delete(m, k)`): removes the
first binding of `k`. -/
def alDel {α : Type} : List (String × α) → String → List (String × α)
  | [], _ => []
  | (k', v) :: rest, k => if k' = k then rest else (k', v) :: alDel rest k

/-- The Go type assertion `v.(string)`: succeeds only on a string value. -/
def asString : Option GoValue → Option String
  | some (GoValue.str s) => some s
  | _ => none

/-- The Go type assertion `v.(int64)`: succeeds only on an integer value. -/
def asInt : Option GoValue → Option Int
  | some (GoValue.int n) => some n
  | _ => none

@[simp]
theorem alGet_alSet {α : Type} (m : List (String × α)) (k k' : String) (v : α) :
    alGet (alSet m k' v) k = if k' = k then some v else alGet m k := by
  induction m with
  | nil => simp [alGet, alSet]
  | cons hd tl ih =>
      obtain ⟨a, b⟩ := hd
      by_cases h1 : a = k'
      · subst h1
        by_cases h2 : a = k
        · subst h2
          simp [alSet, alGet]
        · simp [alSet, alGet, h2]
      · by_cases h2 : k' = k
        · subst h2
          simp [alSet, alGet, h1, ih]
        · by_cases h3 : a = k
          · subst h3
            have h5 : ¬k' = a := fun h => h1 h.symm
            simp [alSet, alGet, h1, h5]
          · simp [alSet, alGet, h1, h2, h3, ih]

theorem alGet_mem {α : Type} (m : List (String × α)) (k : String) (v : α)
    (h : alGet m k = some v) : (k, v) ∈ m := by
  induction m with
  | nil => simp [alGet] at h
  | cons hd tl ih =>
      obtain ⟨a, b⟩ := hd
      by_cases h1 : a = k
      · subst h1
        simp [alGet] at h
        simp [h]
      · simp [alGet, h1] at h
        exact List.mem_cons_of_mem _ (ih h)

theorem alDel_append {α : Type} (done : List (String × α)) (k : String)
    (b : α) (rest : List (String × α)) (hk : k ∉ done.map Prod.fst) :
    alDel (done ++ (k, b) :: rest) k = done ++ rest := by
  induction done with
  | nil => simp [alDel]
  | cons hd tl ih =>
      obtain ⟨a, c⟩ := hd
      simp only [List.map_cons, List.mem_cons] at hk
      push_neg at hk
      have ha : a ≠ k := fun h => hk.1 h.symm
      simp [alDel, ha, ih hk.2]

/-- Embedding of `LogBuffer` (src/beater/journalbeat.go:36): the pending
buffered entry for one stream key.  `time` is `lastTouched`. -/
structure LogBuffer : Type where
  time : Int
  logEvent : MapStr
  logType : String
deriving DecidableEq, Repr

/-- The observable state of the Buffering Engine:
`buffers` is `journalTypeOutstandingLogBuffer`; `published` records, in
order, every event handed to `client.PublishEvent` (the sink); `cursors`
records, in order, every position marker sent on `cursorChan` to the
checkpoint writer. -/
structure BeatState : Type where
  buffers : List (String × LogBuffer)
  published : List MapStr
  cursors : List String
deriving DecidableEq, Repr

/-- The continuation test of src/beater/journalbeat.go:204:
`newLogMessage != "" && (newLogMessage[0] == ' ' || newLogMessage[0] == '\t')`.
The byte test on index 0 agrees with the first-character test because a
multi-byte first character never has a leading byte equal to a space or
tab; the match mirrors the short-circuit on the empty string. -/
def isContinuation (msg : String) : Bool :=
  match msg.data with
  | [] => false
  | c :: _ => c == ' ' || c == '\t'

/-- Staleness test of src/beater/journalbeat.go:190:
`time.Now().Sub(logBuffer.time).Seconds() >= jb.config.FlushLogInterval.Seconds()`. -/
def isStale (now threshold : Int) (b : LogBuffer) : Bool :=
  decide (threshold ≤ now - b.time)

/-- Embedding of `flushOrBufferLogs` (src/beater/journalbeat.go:199), the
Ingest operation of the Buffering Engine.  `none` models a panic of an
unchecked type assertion.  `metricsEnabled` is `jb.config.MetricsEnabled`;
when it is set the emit path also asserts `event["utcTimestamp"].(int64)`
(the metric arithmetic itself has no further observable effect on the
engine state and is not recorded). -/
def flushOrBufferLogs (now : Int) (metricsEnabled : Bool) (event : MapStr)
    (st : BeatState) : Option BeatState :=
  match asString (alGet event "message") with
  | none => none
  | some newLogMessage =>
    match asString (alGet event "logBufferingType") with
    | none => none
    | some logType =>
      let freshBuf : LogBuffer :=
        { time := now, logEvent := event, logType := logType }
      if isContinuation newLogMessage then
        match alGet st.buffers logType with
        | some oldLog =>
          match asString (alGet oldLog.logEvent "message") with
          | none => none
          | some oldMsg =>
            let mergedBuf : LogBuffer :=
              { time := now,
                logEvent := alSet oldLog.logEvent "message"
                  (GoValue.str (oldMsg ++ "\n" ++ newLogMessage)),
                logType := oldLog.logType }
            some { st with buffers := alSet st.buffers logType mergedBuf }
        | none =>
          some { st with buffers := alSet st.buffers logType freshBuf }
      else
        match alGet st.buffers logType with
        | some oldLogBuffer =>
          if metricsEnabled then
            match asInt (alGet event "utcTimestamp") with
            | none => none
            | some _ =>
              some { buffers := alSet st.buffers logType freshBuf,
                     published := st.published ++ [oldLogBuffer.logEvent],
                     cursors := st.cursors }
          else
            some { buffers := alSet st.buffers logType freshBuf,
                   published := st.published ++ [oldLogBuffer.logEvent],
                   cursors := st.cursors }
        | none =>
          some { st with buffers := alSet st.buffers logType freshBuf }

/-- One pass of the loop body of `flushStaleLogMessages`
(src/beater/journalbeat.go:188) over a snapshot of the map entries: each
stale entry is published to the sink, deleted from the map, and its
`cursor` field (an unchecked string assertion) is sent to the checkpoint
writer. -/
def flushStaleGo (now threshold : Int) :
    List (String × LogBuffer) → BeatState → Option BeatState
  | [], st => some st
  | (logType, logBuffer) :: rest, st =>
    if isStale now threshold logBuffer then
      match asString (alGet logBuffer.logEvent "cursor") with
      | none => none
      | some c =>
        flushStaleGo now threshold rest
          { buffers := alDel st.buffers logType,
            published := st.published ++ [logBuffer.logEvent],
            cursors := st.cursors ++ [c] }
    else
      flushStaleGo now threshold rest st

/-- Embedding of `flushStaleLogMessages` (src/beater/journalbeat.go:188),
the ReapStale operation of the Buffering Engine. -/
def flushStaleLogMessages (now threshold : Int) (st : BeatState) :
    Option BeatState :=
  flushStaleGo now threshold st.buffers st

/-- The `cursor` field of a buffered event, as read by the reap pass. -/
def cursorStr (b : LogBuffer) : String :=
  match asString (alGet b.logEvent "cursor") with
  | some c => c
  | none => ""

/-- Embedding of `saveCursorState` (src/beater/journalbeat.go:140): the
persist step of the checkpoint writer.  A write to the cursor state file
is modelled by appending the written value to `writes`; the guard skips
the write while `cursor` still holds its zero value `""`. -/
def saveCursorState (cursor : String) (writes : List String) : List String :=
  if cursor ≠ "" then writes ++ [cursor] else writes

/-- The `for cursor = range jb.cursorChan` loop of `writeCursorLoop`
(src/beater/journalbeat.go:155): each step receives a marker together
with a flag telling whether the flush-period tick had fired (the
non-blocking `select` on `tick`); if it had, the current marker is
persisted.  Returns the final value of the `cursor` variable and the list
of persisted values. -/
def writeCursorLoopGo :
    List (String × Bool) → String → List String → String × List String
  | [], cursor, writes => (cursor, writes)
  | (c, tick) :: rest, _, writes =>
      writeCursorLoopGo rest c (if tick then saveCursorState c writes else writes)

/-- Embedding of `writeCursorLoop` (src/beater/journalbeat.go:138) run to
completion on the fully drained marker sequence `events` (the channel
range ends when `cursorChan` is closed at shutdown): the loop runs with
`cursor` initialised to `""`, and the deferred `saveCursorState cursor`
performs the final persist. -/
def writeCursorLoop (events : List (String × Bool)) : List String :=
  let r := writeCursorLoopGo events "" []
  saveCursorState r.1 r.2

/-- The last marker in a drained sequence, or `c0` if none was received:
the value the `cursor` loop variable holds when the channel closes. -/
def lastMarker (events : List (String × Bool)) (c0 : String) : String :=
  match events with
  | [] => c0
  | (c, _) :: rest => lastMarker rest c

/- Field-name constants of src/beater/journalbeat.go:42. -/

def containerTagField : String := "CONTAINER_TAG"

def containerIdField : String := "CONTAINER_ID"

def tagField : String := "SYSLOG_IDENTIFIER"

def processField : String := "_PID"

def hostNameField : String := "_HOST_NAME"

def messageField : String := "MESSAGE"

def timestampField : String := "_SOURCE_REALTIME_TIMESTAMP"

/-- Embedding of a `sdjournal.JournalEntry` as consumed by the `Run` loop
(src/beater/journalbeat.go:321): a field map, an opaque position marker
(`Cursor`) and the record's own realtime timestamp (a `uint64`). -/
structure RawEvent : Type where
  fields : List (String × String)
  cursor : String
  realtimeTimestamp : Nat
deriving DecidableEq, Repr

/-- Go map read with ok-check on the journal fields. -/
def fieldsGet (fs : List (String × String)) (k : String) : Option String :=
  match fs with
  | [] => none
  | (k', v) :: rest => if k' = k then some v else fieldsGet rest k

/-- Go map read without ok-check: a missing key yields the zero value `""`. -/
def fieldsGetD (fs : List (String × String)) (k : String) : String :=
  (fieldsGet fs k).getD ""

/-- Go conversion `int64(u)` of a `uint64` value: wraps modulo 2^64. -/
def toInt64 (n : Nat) : Int :=
  if n % 2 ^ 64 < 2 ^ 63 then ((n % 2 ^ 64 : Nat) : Int)
  else ((n % 2 ^ 64 : Nat) : Int) - 2 ^ 64

/-- Decimal digit accumulator of `strconv.ParseInt`: fails on the first
non-digit character. -/
def decDigitsValGo : List Char → Nat → Option Nat
  | [], acc => some acc
  | c :: cs, acc =>
      if '0' ≤ c ∧ c ≤ '9' then
        decDigitsValGo cs (acc * 10 + (c.toNat - '0'.toNat))
      else none

/-- Unsigned decimal parse: fails on the empty digit string. -/
def goParseUint (cs : List Char) : Option Nat :=
  match cs with
  | [] => none
  | _ => decDigitsValGo cs 0

/-- Embedding of `strconv.ParseInt(s, 10, 64)`
(src/beater/journalbeat.go:348): an optional sign followed by at least
one decimal digit, with the value required to fit in an `int64`; every
failure (empty string, stray character, overflow) is an error, modelled
as `none`. -/
def goParseInt64 (s : String) : Option Int :=
  match s.data with
  | '+' :: cs =>
      (goParseUint cs).bind fun n =>
        if (n : Int) ≤ 2 ^ 63 - 1 then some (n : Int) else none
  | '-' :: cs =>
      (goParseUint cs).bind fun n =>
        if (n : Int) ≤ 2 ^ 63 then some (-(n : Int)) else none
  | cs =>
      (goParseUint cs).bind fun n =>
        if (n : Int) ≤ 2 ^ 63 - 1 then some (n : Int) else none

/-- Proleptic Gregorian civil date from a count of days since 1970-01-01
(the date arithmetic performed by Go's `time` package when formatting):
returns (year, month, day). -/
def civilFromDays (z0 : Int) : Int × Nat × Nat :=
  let z : Int := z0 + 719468
  let era : Int := Int.fdiv z 146097
  let doe : Nat := (z - era * 146097).toNat
  let yoe : Nat := (doe - doe / 1460 + doe / 36524 - doe / 146096) / 365
  let y : Int := (yoe : Int) + era * 400
  let doy : Nat := doe - (365 * yoe + yoe / 4 - yoe / 100)
  let mp : Nat := (5 * doy + 2) / 153
  let d : Nat := doy - (153 * mp + 2) / 5 + 1
  let m : Nat := if mp < 10 then mp + 3 else mp - 9
  (if m ≤ 2 then y + 1 else y, m, d)

/-- Two-digit zero-padded rendering (Go layout chunks "01", "02", ...). -/
def pad2 (n : Nat) : String :=
  if n < 10 then "0" ++ toString n else toString n

/-- Four-digit zero-padded rendering of a natural number. -/
def pad4 (n : Nat) : String :=
  if n < 10 then "000" ++ toString n
  else if n < 100 then "00" ++ toString n
  else if n < 1000 then "0" ++ toString n
  else toString n

/-- Rendering of the year for Go layout chunk "2006": zero-padded to four
digits, with a leading minus sign for negative years. -/
def pad4Int (y : Int) : String :=
  if y < 0 then "-" ++ pad4 (-y).toNat else pad4 y.toNat

/-- Embedding of `convertMicrosecondsEpochToISO8601`
(src/beater/journalbeat.go:253).  The source computes
`tmSecs = microsecondsEpoch / microseconds` and
`tmUSecs = microsecondsEpoch % microseconds` with Go's truncating
division, builds `time.Unix(tmSecs, tmUSecs*1000)` — an instant of
`microsecondsEpoch * 1000` nanoseconds since the epoch — and formats it
in the machine's local zone, modelled as a fixed offset `tzOffset`
seconds east of UTC, with the layout `"2006-01-02T15:04:05.760738998Z"`.
That layout parses into the chunks `year "-" month "-" day "T" hour ":"
minute ":" second ".7607" hour12 "8998Z"`: the substring `".760738998"`
is not a valid Go fractional-second directive (which requires a run of
zeros or nines after the dot), so apart from the embedded `3` — the Go
directive for the hour on a 12-hour clock, printed without padding — it
is reproduced literally, and the sub-second part of the instant is never
consulted. -/
def convertMicrosecondsEpochToISO8601 (microsecondsEpoch tzOffset : Int) :
    String :=
  let localSecs : Int := Int.fdiv (microsecondsEpoch * 1000) 1000000000 + tzOffset
  let days : Int := Int.fdiv localSecs 86400
  let secsOfDay : Nat := (Int.emod localSecs 86400).toNat
  let hour : Nat := secsOfDay / 3600
  let minute : Nat := secsOfDay % 3600 / 60
  let second : Nat := secsOfDay % 60
  let ymd := civilFromDays days
  let hour12 : Nat := if hour % 12 = 0 then 12 else hour % 12
  pad4Int ymd.1 ++ "-" ++ pad2 ymd.2.1 ++ "-" ++ pad2 ymd.2.2 ++ "T" ++
    pad2 hour ++ ":" ++ pad2 minute ++ ":" ++ pad2 second ++
    ".7607" ++ toString hour12 ++ "8998Z"

/-- Configuration of the normalization step of the `Run` loop: the
configured default event type and the machine's local-zone offset used
when formatting timestamps. -/
structure NormCfg : Type where
  defaultType : String
  tzOffset : Int
deriving DecidableEq, Repr

/-- Modelled from the spec: `MapStrFromJournalEntry` is defined in a file
of this repository that is not under src/ (only its call sites in `Run`
are).  Per the spec the Normalizer carries the record's selected fields
into the event and in particular its `message` payload, so the model
copies every selected field present in the record and stores the
message-field value (defaulting to the empty string) under the key
`"message"` read later by the Buffering Engine.  No claim depends on the
fields this function sets: every field a claim mentions is overwritten
explicitly by `Run` afterwards. -/
def mapStrFromJournalEntry (r : RawEvent) (selectedFields : List String) :
    MapStr :=
  alSet (selectedFields.foldl
      (fun e f =>
        match fieldsGet r.fields f with
        | some v => alSet e f (GoValue.str v)
        | none => e)
      [])
    "message" (GoValue.str (fieldsGetD r.fields messageField))

/-- The timestamp-derivation tail of the `Run` loop body
(src/beater/journalbeat.go:347): try to parse the high-resolution
timestamp field as a decimal `int64`; on absence or parse failure fall
back to the record's own realtime timestamp; set `"@timestamp"` (the
formatted rendering) and `"utcTimestamp"` (the raw microsecond count) on
the event. -/
def withDerivedTimestamps (cfg : NormCfg) (r : RawEvent) (e2 : MapStr) :
    MapStr :=
  match fieldsGet r.fields timestampField with
  | some tmStr =>
      match goParseInt64 tmStr with
      | some tm =>
          alSet (alSet e2 "@timestamp"
              (GoValue.str (convertMicrosecondsEpochToISO8601 tm cfg.tzOffset)))
            "utcTimestamp" (GoValue.int tm)
      | none =>
          alSet (alSet e2 "@timestamp"
              (GoValue.str (convertMicrosecondsEpochToISO8601
                (toInt64 r.realtimeTimestamp) cfg.tzOffset)))
            "utcTimestamp" (GoValue.int (toInt64 r.realtimeTimestamp))
  | none =>
      alSet (alSet e2 "@timestamp"
          (GoValue.str (convertMicrosecondsEpochToISO8601
            (toInt64 r.realtimeTimestamp) cfg.tzOffset)))
        "utcTimestamp" (GoValue.int (toInt64 r.realtimeTimestamp))

/-- Embedding of the per-record normalization performed by the body of the
`Run` loop (src/beater/journalbeat.go:321): field selection by record
shape, derived stream key (`logBufferingType`), position marker, and
timestamp derivation with fallback to the record's realtime timestamp. -/
def normalize (cfg : NormCfg) (r : RawEvent) : MapStr :=
  let commonFields : List String := [hostNameField, messageField]
  let e0 : MapStr :=
    match fieldsGet r.fields containerIdField with
    | some _ =>
        let e := mapStrFromJournalEntry r
          (commonFields ++ [containerTagField, containerIdField])
        let e := alSet e "type" (GoValue.str "container")
        alSet e "logBufferingType"
          (GoValue.str (fieldsGetD r.fields containerIdField))
    | none =>
        let e := mapStrFromJournalEntry r
          (commonFields ++ [tagField, processField])
        let e := alSet e "type" (GoValue.str (fieldsGetD r.fields tagField))
        alSet e "logBufferingType"
          (GoValue.str (fieldsGetD r.fields processField))
  let e1 : MapStr := alSet e0 "input_type" (GoValue.str cfg.defaultType)
  let e2 : MapStr := alSet e1 "cursor" (GoValue.str r.cursor)
  withDerivedTimestamps cfg r e2

/-- The timestamp value the `Run` loop derives for a record: the parsed
high-resolution timestamp field when present and well-formed, otherwise
the record's own realtime timestamp. -/
def deriveTimestamp (r : RawEvent) : Int :=
  match fieldsGet r.fields timestampField with
  | some tmStr =>
      match goParseInt64 tmStr with
      | some tm => tm
      | none => toInt64 r.realtimeTimestamp
  | none => toInt64 r.realtimeTimestamp

/-- The stream key the `Run` loop derives for a record: the
container-identity field when present, otherwise the process-identifier
field (the empty string when that field is absent). -/
def streamKeyOf (r : RawEvent) : String :=
  match fieldsGet r.fields containerIdField with
  | some v => v
  | none => fieldsGetD r.fields processField

/-- A minimal engine event, used for concrete scenarios: a message, a
stream key and a position marker. -/
def mkEv (m k c : String) : MapStr :=
  [("message", GoValue.str m), ("logBufferingType", GoValue.str k),
   ("cursor", GoValue.str c)]

/-- The empty engine state: no buffered entries, nothing published, no
markers forwarded. -/
def st0 : BeatState := ⟨[], [], []⟩

/-! ### Behaviour of the Ingest operation, by branch -/

theorem flushOrBufferLogs_merge (now : Int) (me : Bool) (event : MapStr)
    (bufs : List (String × LogBuffer)) (pub : List MapStr)
    (cur : List String) (msg lt : String) (old : LogBuffer) (oldMsg : String)
    (hm : alGet event "message" = some (GoValue.str msg))
    (hl : alGet event "logBufferingType" = some (GoValue.str lt))
    (hc : isContinuation msg = true)
    (hb : alGet bufs lt = some old)
    (ho : alGet old.logEvent "message" = some (GoValue.str oldMsg)) :
    flushOrBufferLogs now me event ⟨bufs, pub, cur⟩ =
      some ⟨alSet bufs lt
              ⟨now, alSet old.logEvent "message"
                      (GoValue.str (oldMsg ++ "\n" ++ msg)), old.logType⟩,
            pub, cur⟩ := by
  simp [flushOrBufferLogs, hm, hl, hc, hb, ho, asString]

theorem flushOrBufferLogs_emit (now : Int) (event : MapStr)
    (bufs : List (String × LogBuffer)) (pub : List MapStr)
    (cur : List String) (msg lt : String) (old : LogBuffer)
    (hm : alGet event "message" = some (GoValue.str msg))
    (hl : alGet event "logBufferingType" = some (GoValue.str lt))
    (hc : isContinuation msg = false)
    (hb : alGet bufs lt = some old) :
    flushOrBufferLogs now false event ⟨bufs, pub, cur⟩ =
      some ⟨alSet bufs lt ⟨now, event, lt⟩,
            pub ++ [old.logEvent], cur⟩ := by
  simp [flushOrBufferLogs, hm, hl, hc, hb, asString]

theorem flushOrBufferLogs_new (now : Int) (me : Bool) (event : MapStr)
    (bufs : List (String × LogBuffer)) (pub : List MapStr)
    (cur : List String) (msg lt : String)
    (hm : alGet event "message" = some (GoValue.str msg))
    (hl : alGet event "logBufferingType" = some (GoValue.str lt))
    (hb : alGet bufs lt = none) :
    flushOrBufferLogs now me event ⟨bufs, pub, cur⟩ =
      some ⟨alSet bufs lt ⟨now, event, lt⟩, pub, cur⟩ := by
  cases hc : isContinuation msg <;>
    simp [flushOrBufferLogs, hm, hl, hc, hb, asString]

/-! ### Behaviour of the ReapStale operation -/

theorem flushStaleGo_append (now thr : Int) :
    ∀ (l done : List (String × LogBuffer)) (pub : List MapStr)
      (cur : List String),
    ((done ++ l).map Prod.fst).Nodup →
    (∀ p ∈ l, isStale now thr p.2 = true →
      ∃ c, alGet p.2.logEvent "cursor" = some (GoValue.str c)) →
    flushStaleGo now thr l ⟨done ++ l, pub, cur⟩ =
      some ⟨done ++ l.filter (fun p => !isStale now thr p.2),
            pub ++ (l.filter (fun p => isStale now thr p.2)).map
              (fun p => p.2.logEvent),
            cur ++ (l.filter (fun p => isStale now thr p.2)).map
              (fun p => cursorStr p.2)⟩ := by
  intro l
  induction l with
  | nil =>
      intro done pub cur hnd hcur
      simp [flushStaleGo]
  | cons hd rest ih =>
      obtain ⟨k, b⟩ := hd
      intro done pub cur hnd hcur
      by_cases hs : isStale now thr b = true
      · obtain ⟨c, hc⟩ := hcur (k, b) (List.mem_cons_self _ _) hs
        have hdisj : (done.map Prod.fst).Disjoint
            (((k, b) :: rest).map Prod.fst) := by
          rw [List.map_append] at hnd
          exact (List.nodup_append.mp hnd).2.2
        have hknot : k ∉ done.map Prod.fst := fun hmem =>
          hdisj hmem (by simp)
        have hstep : flushStaleGo now thr ((k, b) :: rest)
            ⟨done ++ (k, b) :: rest, pub, cur⟩ =
            flushStaleGo now thr rest
              ⟨alDel (done ++ (k, b) :: rest) k,
               pub ++ [b.logEvent], cur ++ [c]⟩ := by
          simp only [flushStaleGo]
          rw [if_pos hs, hc]
          rfl
        rw [hstep, alDel_append done k b rest hknot]
        have hnd' : ((done ++ rest).map Prod.fst).Nodup := by
          refine List.Nodup.sublist ?_ hnd
          exact List.Sublist.map _
            (List.Sublist.append_left (List.sublist_cons_self _ _) done)
        rw [ih done (pub ++ [b.logEvent]) (cur ++ [c]) hnd'
          (fun p hp hps => hcur p (List.mem_cons_of_mem _ hp) hps)]
        simp [hs, cursorStr, hc, asString]
      · have hs' : isStale now thr b = false := by
          simpa using hs
        have hstep : flushStaleGo now thr ((k, b) :: rest)
            ⟨done ++ (k, b) :: rest, pub, cur⟩ =
            flushStaleGo now thr rest ⟨done ++ (k, b) :: rest, pub, cur⟩ := by
          simp only [flushStaleGo]
          rw [if_neg hs]
        rw [hstep]
        have hap : done ++ (k, b) :: rest = (done ++ [(k, b)]) ++ rest := by
          simp
        rw [hap]
        have hnd' : (((done ++ [(k, b)]) ++ rest).map Prod.fst).Nodup := by
          rw [← hap]; exact hnd
        rw [ih (done ++ [(k, b)]) pub cur hnd'
          (fun p hp hps => hcur p (List.mem_cons_of_mem _ hp) hps)]
        simp [hs']

theorem flushStaleGo_total (now thr : Int) :
    ∀ (l : List (String × LogBuffer)) (st : BeatState),
    (∀ p ∈ l, isStale now thr p.2 = true →
      ∃ c, alGet p.2.logEvent "cursor" = some (GoValue.str c)) →
    (flushStaleGo now thr l st).isSome = true := by
  intro l
  induction l with
  | nil => intro st h; rfl
  | cons hd rest ih =>
      obtain ⟨k, b⟩ := hd
      intro st h
      by_cases hs : isStale now thr b = true
      · obtain ⟨c, hc⟩ := h (k, b) (List.mem_cons_self _ _) hs
        have hstep : flushStaleGo now thr ((k, b) :: rest) st =
            flushStaleGo now thr rest
              ⟨alDel st.buffers k, st.published ++ [b.logEvent],
               st.cursors ++ [c]⟩ := by
          simp only [flushStaleGo]
          rw [if_pos hs, hc]
          rfl
        rw [hstep]
        exact ih _ (fun p hp hps => h p (List.mem_cons_of_mem _ hp) hps)
      · have hstep : flushStaleGo now thr ((k, b) :: rest) st =
            flushStaleGo now thr rest st := by
          simp only [flushStaleGo]
          rw [if_neg hs]
        rw [hstep]
        exact ih _ (fun p hp hps => h p (List.mem_cons_of_mem _ hp) hps)

/-- C5: a ReapStale pass emits (appends to the sink sequence, in
iteration order, forwarding one marker per emitted entry) and removes
exactly the buffered entries whose `lastTouched` is at least the
threshold old; younger entries stay buffered, unchanged.  The pass
depends only on the buffered entries and the clock, so a stale entry is
emitted by the pass even if no further record for its key ever arrives. -/
theorem reap_stale_spec (now thr : Int) (bufs : List (String × LogBuffer))
    (pub : List MapStr) (cur : List String)
    (hnd : (bufs.map Prod.fst).Nodup)
    (hcur : ∀ p ∈ bufs, isStale now thr p.2 = true →
      ∃ c, alGet p.2.logEvent "cursor" = some (GoValue.str c)) :
    flushStaleLogMessages now thr ⟨bufs, pub, cur⟩ =
      some ⟨bufs.filter (fun p => !isStale now thr p.2),
            pub ++ (bufs.filter (fun p => isStale now thr p.2)).map
              (fun p => p.2.logEvent),
            cur ++ (bufs.filter (fun p => isStale now thr p.2)).map
              (fun p => cursorStr p.2)⟩ := by
  have h := flushStaleGo_append now thr bufs [] pub cur (by simpa using hnd) hcur
  simpa [flushStaleLogMessages] using h

/-- C5 witness: a reap pass over one stale and one fresh entry emits and
removes exactly the stale one, forwarding exactly its marker. -/
theorem reap_stale_spec_witness :
    flushStaleLogMessages 10 5
        ⟨[("a", ⟨0, mkEv "A" "a" "ca", "a"⟩),
          ("b", ⟨8, mkEv "B" "b" "cb", "b"⟩)], [], []⟩ =
      some ⟨[("b", ⟨8, mkEv "B" "b" "cb", "b"⟩)],
            [mkEv "A" "a" "ca"], ["ca"]⟩ := by
  have h := reap_stale_spec 10 5
    [("a", ⟨0, mkEv "A" "a" "ca", "a"⟩), ("b", ⟨8, mkEv "B" "b" "cb", "b"⟩)]
    [] [] (by decide)
    (by
      intro p hp hps
      simp only [List.mem_cons, List.not_mem_nil, or_false] at hp
      rcases hp with rfl | rfl
      · exact ⟨"ca", by decide⟩
      · exact ⟨"cb", by decide⟩)
  rw [h]
  decide

/-- C2 counterexample: for the same stream key, ingest message "A", then
the continuation " B" (leading space), then run a reap-stale pass.  The
emitted entry's message is "A\n B" — the merge at
src/beater/journalbeat.go:207 appends the continuation verbatim, leading
whitespace included — and "A\n B" is not the "A\nB" the claim states. -/
theorem continuation_merge_keeps_leading_space_cex :
    ((flushOrBufferLogs 0 false (mkEv "A" "k" "c1") st0).bind
      (fun s1 => (flushOrBufferLogs 0 false (mkEv " B" "k" "c2") s1).bind
        (flushStaleLogMessages 30 30))) =
      some ⟨[], [alSet (mkEv "A" "k" "c1") "message" (GoValue.str "A\n B")],
            ["c1"]⟩
    ∧ alGet (alSet (mkEv "A" "k" "c1") "message" (GoValue.str "A\n B"))
        "message" = some (GoValue.str "A\n B")
    ∧ GoValue.str "A\n B" ≠ GoValue.str "A\nB" := by
  decide

/-- C2 (amended): for any two successive events on the same stream key
where the first has message "A" and the second has message " B" (leading
space), with no later event for that key, the entry emitted by the next
reap-stale pass has message exactly "A\n B": the continuation is appended
after a newline with its leading whitespace preserved. -/
theorem continuation_merge_message_exact (k c1 c2 : String) (t thr : Int)
    (ht : thr ≤ t) :
    ((flushOrBufferLogs 0 false (mkEv "A" k c1) st0).bind
      (fun s1 => (flushOrBufferLogs 0 false (mkEv " B" k c2) s1).bind
        (flushStaleLogMessages t thr))) =
      some ⟨[], [alSet (mkEv "A" k c1) "message" (GoValue.str "A\n B")],
            [c1]⟩
    ∧ alGet (alSet (mkEv "A" k c1) "message" (GoValue.str "A\n B"))
        "message" = some (GoValue.str "A\n B") := by
  have hm1 : alGet (mkEv "A" k c1) "message" = some (GoValue.str "A") := by
    simp [mkEv, alGet]
  have hl1 : alGet (mkEv "A" k c1) "logBufferingType" =
      some (GoValue.str k) := by
    simp [mkEv, alGet]
  have hm2 : alGet (mkEv " B" k c2) "message" = some (GoValue.str " B") := by
    simp [mkEv, alGet]
  have hl2 : alGet (mkEv " B" k c2) "logBufferingType" =
      some (GoValue.str k) := by
    simp [mkEv, alGet]
  have hcu : alGet (mkEv "A" k c1) "cursor" = some (GoValue.str c1) := by
    simp [mkEv, alGet]
  have h1 := flushOrBufferLogs_new 0 false (mkEv "A" k c1) [] [] [] "A" k
    hm1 hl1 (by simp [alGet])
  have hset1 : alSet ([] : List (String × LogBuffer)) k
      ⟨0, mkEv "A" k c1, k⟩ = [(k, ⟨0, mkEv "A" k c1, k⟩)] := by
    simp [alSet]
  have h2 := flushOrBufferLogs_merge 0 false (mkEv " B" k c2)
    [(k, ⟨0, mkEv "A" k c1, k⟩)] [] [] " B" k ⟨0, mkEv "A" k c1, k⟩ "A"
    hm2 hl2 (by decide) (by simp [alGet]) hm1
  have hset2 : alSet [(k, (⟨0, mkEv "A" k c1, k⟩ : LogBuffer))] k
      (⟨0, alSet (mkEv "A" k c1) "message"
        (GoValue.str ("A" ++ "\n" ++ " B")), k⟩ : LogBuffer) =
      [(k, (⟨0, alSet (mkEv "A" k c1) "message"
        (GoValue.str "A\n B"), k⟩ : LogBuffer))] := by
    simp [alSet]
  have hmerged : alGet (alSet (mkEv "A" k c1) "message"
      (GoValue.str "A\n B")) "cursor" = some (GoValue.str c1) := by
    rw [alGet_alSet, if_neg (by decide)]
    exact hcu
  have hstale : isStale t thr
      ⟨0, alSet (mkEv "A" k c1) "message" (GoValue.str "A\n B"), k⟩ = true := by
    simp only [isStale, decide_eq_true_eq]
    omega
  have h3 := flushStaleGo_append t thr
    [(k, ⟨0, alSet (mkEv "A" k c1) "message" (GoValue.str "A\n B"), k⟩)]
    [] [] []
    (by simp)
    (by
      intro p hp hps
      simp only [List.mem_singleton] at hp
      subst hp
      exact ⟨c1, hmerged⟩)
  simp only [List.nil_append, List.filter_cons, List.filter_nil, hstale,
    Bool.not_true, List.map_cons, List.map_nil, cursorStr, hmerged, asString,
    if_true, if_false, Bool.false_eq_true, ite_false, ite_true] at h3
  refine ⟨?_, by rw [alGet_alSet]; simp⟩
  have happ : ("A" ++ "\n" ++ " B" : String) = "A\n B" := rfl
  have e1 : flushOrBufferLogs 0 false (mkEv "A" k c1) st0 =
      some ⟨[(k, ⟨0, mkEv "A" k c1, k⟩)], [], []⟩ := by
    rw [show st0 = (⟨[], [], []⟩ : BeatState) from rfl, h1, hset1]
  have e2 : flushOrBufferLogs 0 false (mkEv " B" k c2)
      ⟨[(k, ⟨0, mkEv "A" k c1, k⟩)], [], []⟩ =
      some ⟨[(k, ⟨0, alSet (mkEv "A" k c1) "message"
               (GoValue.str "A\n B"), k⟩)], [], []⟩ := by
    rw [h2]
    simp [alSet, happ]
  rw [e1]
  show (flushOrBufferLogs 0 false (mkEv " B" k c2)
      ⟨[(k, ⟨0, mkEv "A" k c1, k⟩)], [], []⟩).bind
      (flushStaleLogMessages t thr) = _
  rw [e2]
  show flushStaleLogMessages t thr
      ⟨[(k, ⟨0, alSet (mkEv "A" k c1) "message"
          (GoValue.str "A\n B"), k⟩)], [], []⟩ = _
  rw [flushStaleLogMessages]
  exact h3

end Journalbeat

namespace Journalbeat

/-- C1 counterexample: the engine holds a buffered entry for key "k"
whose position marker is "c1"; a non-continuation event for "k" arrives.
The old entry is published to the sink, but the marker sequence consumed
by the Checkpoint Writer stays empty: the ingest emit path of
`flushOrBufferLogs` (src/beater/journalbeat.go:217) never sends on
`cursorChan`, so the claim that the Checkpoint Writer receives one marker
per emitted entry is false. -/
theorem ingest_emit_drops_marker_cex :
    flushOrBufferLogs 1 false (mkEv "C" "k" "c2")
        ⟨[("k", ⟨0, mkEv "A" "k" "c1", "k"⟩)], [], []⟩ =
      some ⟨[("k", ⟨1, mkEv "C" "k" "c2", "k"⟩)],
            [mkEv "A" "k" "c1"], []⟩ := by
  decide

/-- C1 (amended): for every Ingest of a non-continuation event whose
streamKey already has a BufferedEntry, the old entry is emitted to the
sink, but its position marker is NOT forwarded to the Checkpoint Writer —
the marker sequence is left unchanged by the ingest emit path (markers
are forwarded only by reap-stale emissions). -/
theorem ingest_emit_publishes_without_marker (now : Int) (event : MapStr)
    (bufs : List (String × LogBuffer)) (pub : List MapStr)
    (cur : List String) (msg lt : String) (old : LogBuffer)
    (hm : alGet event "message" = some (GoValue.str msg))
    (hl : alGet event "logBufferingType" = some (GoValue.str lt))
    (hc : isContinuation msg = false)
    (hb : alGet bufs lt = some old) :
    flushOrBufferLogs now false event ⟨bufs, pub, cur⟩ =
      some ⟨alSet bufs lt ⟨now, event, lt⟩,
            pub ++ [old.logEvent], cur⟩ :=
  flushOrBufferLogs_emit now event bufs pub cur msg lt old hm hl hc hb

/-- C1 witness: the amended theorem applied to a concrete buffered entry
and a concrete non-continuation event. -/
theorem ingest_emit_publishes_without_marker_witness :
    flushOrBufferLogs 5 false (mkEv "next" "p1" "c9")
        ⟨[("p1", ⟨2, mkEv "first" "p1" "c8", "p1"⟩)], [], ["c0"]⟩ =
      some ⟨alSet [("p1", ⟨2, mkEv "first" "p1" "c8", "p1"⟩)] "p1"
              ⟨5, mkEv "next" "p1" "c9", "p1"⟩,
            [] ++ [mkEv "first" "p1" "c8"], ["c0"]⟩ :=
  ingest_emit_publishes_without_marker 5 (mkEv "next" "p1" "c9")
    [("p1", ⟨2, mkEv "first" "p1" "c8", "p1"⟩)] [] ["c0"]
    "next" "p1" ⟨2, mkEv "first" "p1" "c8", "p1"⟩
    (by decide) (by decide) (by decide) (by decide)

/-- C4: when a continuation line merges into an existing buffered entry,
the buffered event's message becomes the old message extended with a
newline and the new message, `lastTouched` becomes the current time, and
every other field of the buffered event — in particular the position
marker `"cursor"` — is exactly the field captured at buffer-creation
time; nothing is published and no marker is forwarded. -/
theorem continuation_merge_frame (now : Int) (me : Bool) (event : MapStr)
    (bufs : List (String × LogBuffer)) (pub : List MapStr)
    (cur : List String) (msg lt : String) (old : LogBuffer) (oldMsg : String)
    (hm : alGet event "message" = some (GoValue.str msg))
    (hl : alGet event "logBufferingType" = some (GoValue.str lt))
    (hc : isContinuation msg = true)
    (hb : alGet bufs lt = some old)
    (ho : alGet old.logEvent "message" = some (GoValue.str oldMsg)) :
    flushOrBufferLogs now me event ⟨bufs, pub, cur⟩ =
      some ⟨alSet bufs lt
              ⟨now, alSet old.logEvent "message"
                      (GoValue.str (oldMsg ++ "\n" ++ msg)), old.logType⟩,
            pub, cur⟩
    ∧ (∀ f : String, f ≠ "message" →
        alGet (alSet old.logEvent "message"
            (GoValue.str (oldMsg ++ "\n" ++ msg))) f = alGet old.logEvent f)
    ∧ alGet (alSet old.logEvent "message"
        (GoValue.str (oldMsg ++ "\n" ++ msg))) "cursor" =
          alGet old.logEvent "cursor" := by
  refine ⟨flushOrBufferLogs_merge now me event bufs pub cur msg lt old oldMsg
            hm hl hc hb ho, ?_, ?_⟩
  · intro f hf
    rw [alGet_alSet]
    exact if_neg fun h => hf h.symm
  · rw [alGet_alSet]
    exact if_neg (by decide)

/-- C4 witness: the frame theorem applied to a concrete merge, checking in
particular that the buffered marker stays the first line's "c1". -/
theorem continuation_merge_frame_witness :
    flushOrBufferLogs 7 false (mkEv " tail" "k" "c2")
        ⟨[("k", ⟨0, mkEv "head" "k" "c1", "k"⟩)], [], []⟩ =
      some ⟨alSet [("k", ⟨0, mkEv "head" "k" "c1", "k"⟩)] "k"
              ⟨7, alSet (mkEv "head" "k" "c1") "message"
                    (GoValue.str ("head" ++ "\n" ++ " tail")), "k"⟩,
            [], []⟩
    ∧ alGet (alSet (mkEv "head" "k" "c1") "message"
        (GoValue.str ("head" ++ "\n" ++ " tail"))) "cursor" =
          alGet (mkEv "head" "k" "c1") "cursor" :=
  ⟨(continuation_merge_frame 7 false (mkEv " tail" "k" "c2")
      [("k", ⟨0, mkEv "head" "k" "c1", "k"⟩)] [] []
      " tail" "k" ⟨0, mkEv "head" "k" "c1", "k"⟩ "head"
      (by decide) (by decide) (by decide) (by decide) (by decide)).1,
   (continuation_merge_frame 7 false (mkEv " tail" "k" "c2")
      [("k", ⟨0, mkEv "head" "k" "c1", "k"⟩)] [] []
      " tail" "k" ⟨0, mkEv "head" "k" "c1", "k"⟩ "head"
      (by decide) (by decide) (by decide) (by decide) (by decide)).2.2⟩

/-- C9: an ingested event is classified as a continuation iff its message
is non-empty and its first character is a space or a tab: exactly then
does Ingest take the merge path (nothing published), and otherwise — in
particular whenever the message is empty — it takes the replace path,
emitting the previously buffered entry. -/
theorem continuation_classification (now : Int) (event : MapStr)
    (bufs : List (String × LogBuffer)) (pub : List MapStr)
    (cur : List String) (msg lt : String) (old : LogBuffer) (oldMsg : String)
    (hm : alGet event "message" = some (GoValue.str msg))
    (hl : alGet event "logBufferingType" = some (GoValue.str lt))
    (hb : alGet bufs lt = some old)
    (ho : alGet old.logEvent "message" = some (GoValue.str oldMsg)) :
    (isContinuation msg = true ↔
      msg ≠ "" ∧ (msg.data.head? = some ' ' ∨ msg.data.head? = some '\t'))
    ∧ (isContinuation msg = true →
        flushOrBufferLogs now false event ⟨bufs, pub, cur⟩ =
          some ⟨alSet bufs lt
                  ⟨now, alSet old.logEvent "message"
                          (GoValue.str (oldMsg ++ "\n" ++ msg)),
                   old.logType⟩, pub, cur⟩)
    ∧ (isContinuation msg = false →
        flushOrBufferLogs now false event ⟨bufs, pub, cur⟩ =
          some ⟨alSet bufs lt ⟨now, event, lt⟩,
                pub ++ [old.logEvent], cur⟩)
    ∧ (msg = "" → isContinuation msg = false) := by
  refine ⟨?_, fun hc => flushOrBufferLogs_merge now false event bufs pub cur
            msg lt old oldMsg hm hl hc hb ho,
          fun hc => flushOrBufferLogs_emit now event bufs pub cur
            msg lt old hm hl hc hb, ?_⟩
  · constructor
    · intro h
      cases hd : msg.data with
      | nil => rw [isContinuation, hd] at h; cases h
      | cons c cs =>
          rw [isContinuation, hd] at h
          refine ⟨fun hmsg => ?_, ?_⟩
          · rw [hmsg] at hd
            exact List.noConfusion hd
          · rcases Bool.or_eq_true_iff.mp h with h' | h'
            · exact Or.inl (by simp [beq_iff_eq.mp h'])
            · exact Or.inr (by simp [beq_iff_eq.mp h'])
    · rintro ⟨hne, hh⟩
      cases hd : msg.data with
      | nil => rw [hd] at hh; simp at hh
      | cons c cs =>
          rw [hd] at hh
          simp only [List.head?_cons, Option.some.injEq] at hh
          rw [isContinuation, hd]
          rcases hh with h' | h' <;> simp [h']
  · intro hmsg
    subst hmsg
    rfl

/-- C9 witness: the classification theorem applied to a concrete state;
the event "x y" (space inside, none leading) is not a continuation, the
event " y" is, and the empty message is not. -/
theorem continuation_classification_witness :
    (isContinuation " y" = true ↔
      (" y" : String) ≠ "" ∧
        ((" y" : String).data.head? = some ' ' ∨
         (" y" : String).data.head? = some '\t'))
    ∧ flushOrBufferLogs 3 false (mkEv "" "k" "c2")
        ⟨[("k", ⟨0, mkEv "A" "k" "c1", "k"⟩)], [], []⟩ =
      some ⟨alSet [("k", ⟨0, mkEv "A" "k" "c1", "k"⟩)] "k"
              ⟨3, mkEv "" "k" "c2", "k"⟩,
            [] ++ [mkEv "A" "k" "c1"], []⟩ :=
  ⟨(continuation_classification 3 (mkEv " y" "k" "c2")
      [("k", ⟨0, mkEv "A" "k" "c1", "k"⟩)] [] []
      " y" "k" ⟨0, mkEv "A" "k" "c1", "k"⟩ "A"
      (by decide) (by decide) (by decide) (by decide)).1,
   (continuation_classification 3 (mkEv "" "k" "c2")
      [("k", ⟨0, mkEv "A" "k" "c1", "k"⟩)] [] []
      "" "k" ⟨0, mkEv "A" "k" "c1", "k"⟩ "A"
      (by decide) (by decide) (by decide) (by decide)).2.2.1 (by decide)⟩

/-- C2 witness: the amended merge theorem applied to concrete keys,
markers and clock values (no tick constraint beyond staleness). -/
theorem continuation_merge_message_exact_witness :
    ((flushOrBufferLogs 0 false (mkEv "A" "kk" "x1") st0).bind
      (fun s1 => (flushOrBufferLogs 0 false (mkEv " B" "kk" "x2") s1).bind
        (flushStaleLogMessages 45 40))) =
      some ⟨[], [alSet (mkEv "A" "kk" "x1") "message" (GoValue.str "A\n B")],
            ["x1"]⟩ :=
  (continuation_merge_message_exact "kk" "x1" "x2" 45 40 (by decide)).1

/-! ### Normalizer facts -/

theorem alGet_withDerivedTimestamps (cfg : NormCfg) (r : RawEvent)
    (e2 : MapStr) (key : String) (h1 : key ≠ "@timestamp")
    (h2 : key ≠ "utcTimestamp") :
    alGet (withDerivedTimestamps cfg r e2) key = alGet e2 key := by
  have h1' : ¬("@timestamp" : String) = key := fun h => h1 h.symm
  have h2' : ¬("utcTimestamp" : String) = key := fun h => h2 h.symm
  unfold withDerivedTimestamps
  cases fieldsGet r.fields timestampField with
  | none => simp [h1', h2']
  | some s =>
      cases hp : goParseInt64 s with
      | none => simp [hp, h1', h2']
      | some tm => simp [hp, h1', h2']

theorem alGet_withDerivedTimestamps_utc (cfg : NormCfg) (r : RawEvent)
    (e2 : MapStr) :
    alGet (withDerivedTimestamps cfg r e2) "utcTimestamp" =
      some (GoValue.int (deriveTimestamp r)) := by
  unfold withDerivedTimestamps deriveTimestamp
  cases fieldsGet r.fields timestampField with
  | none => simp
  | some s =>
      cases hp : goParseInt64 s with
      | none => simp [hp]
      | some tm => simp [hp]

/-- C3 counterexample: a record with no container-identity field and no
process-identifier field (for example a kernel message) normalizes to an
event whose stream key `logBufferingType` is the empty string — the plain
Go map read at src/beater/journalbeat.go:342 yields the zero value — so
the invariant that the stream key is never empty is false. -/
theorem streamKey_empty_cex :
    alGet (normalize ⟨"journal", 0⟩ ⟨[], "c0", 0⟩) "logBufferingType" =
      some (GoValue.str "") := by
  decide

/-- C3 (amended): normalization always assigns a stream key: the
container-identity field's value when that field is present, otherwise
the process-identifier field's value, defaulting to the empty string when
it is absent.  The stream key is therefore well-defined but not
guaranteed non-empty. -/
theorem streamKey_selection (cfg : NormCfg) (r : RawEvent) :
    alGet (normalize cfg r) "logBufferingType" =
      some (GoValue.str (streamKeyOf r)) := by
  unfold normalize streamKeyOf
  rw [alGet_withDerivedTimestamps cfg r _ _ (by decide) (by decide)]
  cases hcid : fieldsGet r.fields containerIdField with
  | some v => simp [fieldsGetD, hcid]
  | none => simp [fieldsGetD, hcid]

/-- C8: for every record, the `Run` loop's derived timestamp is the
decimal parse of the high-resolution timestamp field when that field is
present and parses as an `int64`; when the field is absent or malformed
it is the record's own realtime timestamp; normalization is total and
stores the derived value in the event's `utcTimestamp` field. -/
theorem timestamp_derivation_fallback (cfg : NormCfg) (r : RawEvent) :
    alGet (normalize cfg r) "utcTimestamp" =
      some (GoValue.int (deriveTimestamp r))
    ∧ (∀ (s : String) (n : Int), fieldsGet r.fields timestampField = some s →
        goParseInt64 s = some n → deriveTimestamp r = n)
    ∧ (∀ s : String, fieldsGet r.fields timestampField = some s →
        goParseInt64 s = none →
        deriveTimestamp r = toInt64 r.realtimeTimestamp)
    ∧ (fieldsGet r.fields timestampField = none →
        deriveTimestamp r = toInt64 r.realtimeTimestamp) := by
  refine ⟨?_, ?_, ?_, ?_⟩
  · unfold normalize
    exact alGet_withDerivedTimestamps_utc cfg r _
  · intro s n hs hn
    simp [deriveTimestamp, hs, hn]
  · intro s hs hn
    simp [deriveTimestamp, hs, hn]
  · intro hs
    simp [deriveTimestamp, hs]

/-- C8 witness: the derivation theorem applied to a record with a
well-formed high-resolution timestamp field and to a record with a
malformed one. -/
theorem timestamp_derivation_fallback_witness :
    deriveTimestamp ⟨[("_SOURCE_REALTIME_TIMESTAMP", "123")], "c", 7⟩ = 123
    ∧ deriveTimestamp ⟨[("_SOURCE_REALTIME_TIMESTAMP", "12x")], "c", 7⟩ =
        toInt64 7 :=
  ⟨(timestamp_derivation_fallback ⟨"journal", 0⟩
      ⟨[("_SOURCE_REALTIME_TIMESTAMP", "123")], "c", 7⟩).2.1 "123" 123
      (by decide) (by decide),
   (timestamp_derivation_fallback ⟨"journal", 0⟩
      ⟨[("_SOURCE_REALTIME_TIMESTAMP", "12x")], "c", 7⟩).2.2.1 "12x"
      (by decide) (by decide)⟩

/-! ### Checkpoint writer facts -/

theorem writeCursorLoopGo_fst (events : List (String × Bool)) :
    ∀ (c0 : String) (w : List String),
    (writeCursorLoopGo events c0 w).1 = lastMarker events c0 := by
  induction events with
  | nil => intro c0 w; rfl
  | cons hd rest ih =>
      obtain ⟨c, tick⟩ := hd
      intro c0 w
      simp [writeCursorLoopGo, lastMarker, ih]

/-- C6 counterexample: a drained marker sequence on which a marker was
received — the empty string, a value the `cursor` state variable cannot
distinguish from its initial no-marker sentinel — yet no write at all
occurs, with or without a period tick: the final persist is not
unconditional. -/
theorem final_persist_empty_marker_cex :
    writeCursorLoop [("", false)] = []
    ∧ writeCursorLoop [("", true)] = [] := by
  decide

/-- C6 (amended): on shutdown, once the marker sequence is fully drained,
the Checkpoint Writer performs one final persist of the last marker seen
— regardless of whether a flush period has elapsed — provided that marker
is non-empty (the empty string is indistinguishable from the initial
no-marker state and is skipped); if no marker was ever received, no write
to durable storage ever occurs. -/
theorem final_persist_on_drain :
    (∀ events : List (String × Bool),
       lastMarker events "" ≠ "" →
       writeCursorLoop events =
         (writeCursorLoopGo events "" []).2 ++ [lastMarker events ""])
    ∧ writeCursorLoop [] = [] := by
  constructor
  · intro events h
    have hfst := writeCursorLoopGo_fst events "" []
    simp only [writeCursorLoop, saveCursorState]
    rw [hfst, if_pos h]
  · rfl

/-- C6 witness: two markers received, the period tick never fires, yet
the drained loop persists the last marker exactly once. -/
theorem final_persist_on_drain_witness :
    writeCursorLoop [("m1", false), ("m2", false)] = ["m2"] := by
  have h := final_persist_on_drain.1 [("m1", false), ("m2", false)] (by decide)
  rw [h]
  decide

/-- C7: the timestamp rendering is NOT an ISO-8601 string with
microsecond precision of the input.  The layout string
`"2006-01-02T15:04:05.760738998Z"` has no valid fractional-second
directive, so the digits after the dot are fixed literal text with the
12-hour clock hour spliced in where the `3` sits: inputs differing only
in their microsecond (even sub-second) component render identically, and
the epoch renders with the junk fraction `.7607128998`. -/
theorem timestamp_format_ignores_microseconds :
    convertMicrosecondsEpochToISO8601 0 0 =
      convertMicrosecondsEpochToISO8601 1 0
    ∧ convertMicrosecondsEpochToISO8601 0 0 =
        "1970-01-01T00:00:00.7607128998Z"
    ∧ convertMicrosecondsEpochToISO8601 500000 0 =
        convertMicrosecondsEpochToISO8601 999999 0 := by
  decide

/-! ### Type-assertion totality -/

/-- C10: Ingest panics (has no error branch) on an event whose
`"message"` or `"logBufferingType"` field is missing or not a string, and
ReapStale panics when a stale buffered event's `"cursor"` field is
missing or not a string; under the precondition that every ingested event
carries string-typed `"message"` and `"logBufferingType"` fields, every
buffered event a string-typed `"message"`, and (for reaping) every
buffered event a string-typed `"cursor"`, both operations (with metrics
disabled) are total. -/
theorem type_assertion_totality :
    (∀ (now : Int) (me : Bool) (ev : MapStr)
       (bufs : List (String × LogBuffer)) (pub : List MapStr)
       (cur : List String),
       asString (alGet ev "message") = none →
       flushOrBufferLogs now me ev ⟨bufs, pub, cur⟩ = none)
    ∧ (∀ (now : Int) (me : Bool) (ev : MapStr)
         (bufs : List (String × LogBuffer)) (pub : List MapStr)
         (cur : List String) (msg : String),
         alGet ev "message" = some (GoValue.str msg) →
         asString (alGet ev "logBufferingType") = none →
         flushOrBufferLogs now me ev ⟨bufs, pub, cur⟩ = none)
    ∧ (∀ (now thr : Int) (k : String) (b : LogBuffer)
         (rest : List (String × LogBuffer)) (pub : List MapStr)
         (cur : List String),
         isStale now thr b = true →
         asString (alGet b.logEvent "cursor") = none →
         flushStaleLogMessages now thr ⟨(k, b) :: rest, pub, cur⟩ = none)
    ∧ (∀ (now : Int) (ev : MapStr) (st : BeatState),
         (∃ m, alGet ev "message" = some (GoValue.str m)) →
         (∃ t, alGet ev "logBufferingType" = some (GoValue.str t)) →
         (∀ p ∈ st.buffers,
           ∃ m, alGet p.2.logEvent "message" = some (GoValue.str m)) →
         (flushOrBufferLogs now false ev st).isSome = true)
    ∧ (∀ (now thr : Int) (st : BeatState),
         (∀ p ∈ st.buffers,
           ∃ c, alGet p.2.logEvent "cursor" = some (GoValue.str c)) →
         (flushStaleLogMessages now thr st).isSome = true) := by
  refine ⟨?_, ?_, ?_, ?_, ?_⟩
  · intro now me ev bufs pub cur h
    simp [flushOrBufferLogs, h]
  · intro now me ev bufs pub cur msg h1 h2
    cases hlb : alGet ev "logBufferingType" with
    | none => simp [flushOrBufferLogs, h1, hlb, asString]
    | some v =>
        cases v with
        | str s =>
            rw [hlb] at h2
            simp [asString] at h2
        | int n => simp [flushOrBufferLogs, h1, hlb, asString]
  · intro now thr k b rest pub cur hs hc
    simp only [flushStaleLogMessages, flushStaleGo]
    rw [if_pos hs, hc]
  · intro now ev st hm ht hall
    obtain ⟨bufs, pub, cur⟩ := st
    obtain ⟨m, hm⟩ := hm
    obtain ⟨t, ht⟩ := ht
    by_cases hc : isContinuation m = true
    · cases hbt : alGet bufs t with
      | none =>
          rw [flushOrBufferLogs_new now false ev bufs pub cur m t hm ht hbt]
          rfl
      | some old =>
          obtain ⟨m', hm'⟩ := hall (t, old) (alGet_mem bufs t old hbt)
          rw [flushOrBufferLogs_merge now false ev bufs pub cur m t old m'
            hm ht hc hbt hm']
          rfl
    · have hc' : isContinuation m = false := by
        simpa using hc
      cases hbt : alGet bufs t with
      | none =>
          rw [flushOrBufferLogs_new now false ev bufs pub cur m t hm ht hbt]
          rfl
      | some old =>
          rw [flushOrBufferLogs_emit now ev bufs pub cur m t old hm ht hc' hbt]
          rfl
  · intro now thr st h
    obtain ⟨bufs, pub, cur⟩ := st
    exact flushStaleGo_total now thr bufs ⟨bufs, pub, cur⟩ (fun p hp _ => h p hp)

/-- C10 witness: the totality theorem applied to concrete inputs — an
event with no fields at all panics Ingest, an event lacking only the
stream-key field panics Ingest, a stale buffered event lacking the cursor
field panics ReapStale, and well-typed inputs succeed. -/
theorem type_assertion_totality_witness :
    flushOrBufferLogs 0 false [] st0 = none
    ∧ flushOrBufferLogs 0 false [("message", GoValue.str "A")] st0 = none
    ∧ flushStaleLogMessages 5 3
        ⟨[("k", ⟨0, [("message", GoValue.str "A")], "k"⟩)], [], []⟩ = none
    ∧ (flushOrBufferLogs 0 false (mkEv "A" "k" "c1") st0).isSome = true
    ∧ (flushStaleLogMessages 5 3
        ⟨[("k", ⟨0, mkEv "A" "k" "c1", "k"⟩)], [], []⟩).isSome = true :=
  ⟨type_assertion_totality.1 0 false [] [] [] [] (by decide),
   type_assertion_totality.2.1 0 false [("message", GoValue.str "A")]
     [] [] [] "A" (by decide) (by decide),
   type_assertion_totality.2.2.1 5 3 "k"
     ⟨0, [("message", GoValue.str "A")], "k"⟩ [] [] [] (by decide) (by decide),
   type_assertion_totality.2.2.2.1 0 (mkEv "A" "k" "c1") st0
     ⟨"A", by decide⟩ ⟨"k", by decide⟩
     (by intro p hp; simp [st0] at hp),
   type_assertion_totality.2.2.2.2 5 3
     ⟨[("k", ⟨0, mkEv "A" "k" "c1", "k"⟩)], [], []⟩
     (by
       intro p hp
       simp only [List.mem_singleton] at hp
       subst hp
       exact ⟨"c1", by decide⟩)⟩

end Journalbeat
